import Mathlib

/-!
# Verification of the mobile.de crawler core (`src/fetch.py`)

Shallow embedding of the crawl state machine and the strict field
normalizers of `fetch.py`, together with theorems settling the frozen
claims about the program.

Strings are modelled as `List Char`.  Python's `re` patterns used by the
normalizers (`_parse_price_eur`, `_parse_km`, `_parse_kw`,
`_parse_minutes`, `_parse_int`) are embedded as deterministic parsers
recognising exactly the language of each anchored `re.fullmatch` pattern.
-/

set_option maxHeartbeats 1000000

/-- Python's `\s` character class, restricted to the codepoints below
U+0100 (the only whitespace codepoints the crawler can meet in practice):
space, tab, LF, VT, FF, CR, FS, GS, RS, US, NEL and NBSP.  Note that
Python's `\s` on `str` patterns matches the non-breaking space U+00A0. -/
def pySpace (c : Char) : Bool :=
  c = ' ' || c = '\t' || c = '\n' || c = Char.ofNat 11 || c = Char.ofNat 12 ||
  c = '\r' || c = Char.ofNat 28 || c = Char.ofNat 29 || c = Char.ofNat 30 ||
  c = Char.ofNat 31 || c = Char.ofNat 133 || c = Char.ofNat 160

/-- The character class `[ \xa0]` used by `_parse_price_eur` between the
number and the euro sign. -/
def nbspSpace (c : Char) : Bool :=
  c = ' ' || c = Char.ofNat 160

/-- ASCII lower-casing, the effect of `re.IGNORECASE` on the ASCII unit
text (`km`, `kW`, `min`) used by the parsers. -/
def lowerA (c : Char) : Char :=
  if 'A' ≤ c && c ≤ 'Z' then Char.ofNat (c.toNat + 32) else c

/-- Case-insensitive literal matching: `matchCI lit s` consumes `lit`
(up to ASCII case) from the front of `s` and returns the rest. -/
def matchCI : List Char → List Char → Option (List Char)
  | [], s => some s
  | c :: cs, d :: ds => if lowerA d = lowerA c then matchCI cs ds else none
  | _ :: _, [] => none

/-- Numeric value of a decimal digit character. -/
def digitVal (c : Char) : Nat := c.toNat - 48

/-- `int(...)` on a string of decimal digits: the usual left fold.  This
is what `int(num_str.replace('.', ''))` computes in the parsers (Python
ints are unbounded, so the `OverflowError` branch is unreachable). -/
def digitsToNat (ds : List Char) : Nat :=
  ds.foldl (fun a c => a * 10 + digitVal c) 0

/-- Does the list start with a decimal digit? -/
def headIsDigit : List Char → Bool
  | [] => false
  | c :: _ => c.isDigit

/-- The `(?:\.\d{3})*` part of the grouped-integer token
`\d{1,3}(?:\.\d{3})*`: repeatedly consume a dot followed by exactly three
digits.  A dot followed by anything other than an exactly-three-digit
group makes the whole anchored regex fail (the separator/unit that must
follow the number can never start with a dot or a digit), which is what
the `none` branches record. Returns the digits of the consumed groups and
the unconsumed rest. -/
def groupsAux : List Char → Option (List Char × List Char)
  | '.' :: a :: b :: c :: rest =>
    if a.isDigit && b.isDigit && c.isDigit && !(headIsDigit rest) then
      (groupsAux rest).map (fun p => (a :: b :: c :: p.1, p.2))
    else none
  | '.' :: _ => none
  | s => some ([], s)

/-- The grouped-integer token `\d{1,3}(?:\.\d{3})*` shared by
`_parse_price_eur`, `_parse_km`, `_parse_kw` and `_parse_minutes`:
a leading group of one to three digits followed by dot-separated groups
of exactly three digits.  Returns the digit characters (dots stripped,
as by `num_str.replace('.', '')`) and the unconsumed rest. -/
def parseGroupedInt (s : List Char) : Option (List Char × List Char) :=
  let d0 := s.takeWhile Char.isDigit
  let r0 := s.dropWhile Char.isDigit
  if 1 ≤ d0.length && d0.length ≤ 3 then
    (groupsAux r0).map (fun p => (d0 ++ p.1, p.2))
  else none

/-- `_parse_price_eur` of `fetch.py`: embedding of
`re.fullmatch(r"^\s*(\d{1,3}(?:\.\d{3})*)[ \xa0]+€\s*$", s)` followed by
`int(num.replace('.', ''))`. -/
def _parse_price_eur (s : List Char) : Option Nat :=
  match parseGroupedInt (s.dropWhile pySpace) with
  | none => none
  | some (ds, r) =>
    let r1 := r.dropWhile nbspSpace
    if r1.length < r.length then
      match r1 with
      | '€' :: r2 => if r2.all pySpace then some (digitsToNat ds) else none
      | _ => none
    else none

/-- `_parse_km` of `fetch.py`: embedding of
`re.fullmatch(r"^\s*(\d{1,3}(?:\.\d{3})*)\s+km\s*$", s, re.IGNORECASE)`
followed by `int(num.replace('.', ''))`. -/
def _parse_km (s : List Char) : Option Nat :=
  match parseGroupedInt (s.dropWhile pySpace) with
  | none => none
  | some (ds, r) =>
    let r1 := r.dropWhile pySpace
    if r1.length < r.length then
      match matchCI ['k', 'm'] r1 with
      | some r2 => if r2.all pySpace then some (digitsToNat ds) else none
      | none => none
    else none

/-- The trailing `(?:\s*\(.*?\))?\s*$` of `_parse_kw`'s pattern: either
only whitespace remains, or (after whitespace) an opening parenthesis
whose matching text runs to a closing parenthesis followed only by
whitespace, with no newline in between (`.` does not match `\n`). -/
def kwTail (r : List Char) : Bool :=
  if r.all pySpace then true
  else
    match r.dropWhile pySpace with
    | '(' :: rest =>
      match rest.reverse.dropWhile pySpace with
      | ')' :: midRev => !(midRev.any (fun c => c = '\n'))
      | _ => false
    | _ => false

/-- `_parse_kw` of `fetch.py`: embedding of
`re.fullmatch(r"^\s*(\d{1,3}(?:\.\d{3})*)\s+kW(?:\s*\(.*?\))?\s*$", s,
re.IGNORECASE)` followed by `int(num.replace('.', ''))`. -/
def _parse_kw (s : List Char) : Option Nat :=
  match parseGroupedInt (s.dropWhile pySpace) with
  | none => none
  | some (ds, r) =>
    let r1 := r.dropWhile pySpace
    if r1.length < r.length then
      match matchCI ['k', 'w'] r1 with
      | some r2 => if kwTail r2 then some (digitsToNat ds) else none
      | none => none
    else none

/-- `_parse_minutes` of `fetch.py`: embedding of
`re.fullmatch(r"^\s*(\d{1,3}(?:\.\d{3})*)\s+min\.?\s*$", s,
re.IGNORECASE)` followed by `int(num.replace('.', ''))`. -/
def _parse_minutes (s : List Char) : Option Nat :=
  match parseGroupedInt (s.dropWhile pySpace) with
  | none => none
  | some (ds, r) =>
    let r1 := r.dropWhile pySpace
    if r1.length < r.length then
      match matchCI ['m', 'i', 'n'] r1 with
      | some r2 =>
        let r3 := if r2.head? = some '.' then r2.tail else r2
        if r3.all pySpace then some (digitsToNat ds) else none
      | none => none
    else none

/-- `_parse_int` of `fetch.py`: embedding of
`re.fullmatch(r"\s*(\d+)\s*", s)` plus the explicit rejection of a
leading zero on a multi-digit number. -/
def _parse_int (s : List Char) : Option Nat :=
  let s1 := s.dropWhile pySpace
  let ds := s1.takeWhile Char.isDigit
  let r := s1.dropWhile Char.isDigit
  if 1 ≤ ds.length && r.all pySpace then
    if 1 < ds.length && ds.head? = some '0' then none
    else some (digitsToNat ds)
  else none

/-! ## Data model: TinyDB documents and the record store

A TinyDB document is a JSON object; `fetch.py` always gives its
documents a `URL` field and a `needs_details` field, modelled as
explicit structure fields, while any remaining fields (title, price,
attributes, ...) live in an association list of JSON values.  The store
is the document list of the database; a TinyDB `doc_id` is the position
in that list (documents are never deleted by the crawler). -/

/-- A JSON value as stored by `fetch.py` in a TinyDB document: a string,
an integer, Python's `None`, or a boolean. -/
inductive Value
  | str : String → Value
  | num : Nat → Value
  | null : Value
  | bool : Bool → Value
deriving DecidableEq

/-- A crawl record: a TinyDB document of `fetch.py`'s database. -/
structure Doc where
  URL : String
  needs_details : Bool
  data : List (String × Value)
deriving DecidableEq

/-- First-match lookup in a field list (the keys written by `fetch.py`
are pairwise distinct, so this is dict lookup). -/
def fget (l : List (String × Value)) (k : String) : Option Value :=
  (l.find? (fun p => p.1 = k)).map (fun p => p.2)

/-- `dict.update` semantics for `db_search.update(car_data, ...)`:
fields of `new` overwrite fields of `old`, other fields survive. -/
def mergeFields (old new : List (String × Value)) : List (String × Value) :=
  old.filter (fun p => !(new.any (fun q => q.1 = p.1))) ++ new

/-- `__clean_car_url` of `fetch.py`: `url.split('&')[0]`, the prefix of
the URL before the first `&`. -/
def clean_car_url (url : String) : String :=
  ⟨url.toList.takeWhile (fun c => !(c = '&'))⟩

/-- `db_search.get(Result.URL == car_url)`: the first document whose
`URL` field equals the given string, if any. -/
def dbGetByURL (st : List Doc) (u : String) : Option Doc :=
  st.find? (fun d => d.URL = u)

/-! ## Discovery stage -/

/-- The loop body of `perform_search_in_pag_num` of `fetch.py`, run over
the item links of a listing page (the `href` attributes of the
`BaseListing_containerLink` anchors, supplied as data since the browser
is an external collaborator).  For each cleaned URL not yet in the
store a pending document `{'URL': u, 'needs_details': True}` is
inserted; existing documents are skipped.  Returns the new store and the
insertion count `n_adds`. -/
def searchPag : List String → List Doc → List Doc × Nat
  | [], st => (st, 0)
  | h :: hs, st =>
    match dbGetByURL st (clean_car_url h) with
    | some _ => searchPag hs st
    | none =>
      let r := searchPag hs (st ++ [⟨clean_car_url h, true, []⟩])
      (r.1, r.2 + 1)

/-- `perform_search_in_pag_num` of `fetch.py`, as a store transformer:
the store after processing one listing page together with `n_adds`. -/
def perform_search_in_pag_num (st : List Doc) (hrefs : List String) :
    List Doc × Nat :=
  searchPag hrefs st

/-- The value the Python function `perform_search_in_pag_num` actually
returns: the boolean `n_adds >= 1`, not the count itself. -/
def pagReturn (st : List Doc) (hrefs : List String) : Bool :=
  decide (1 ≤ (perform_search_in_pag_num st hrefs).2)

/-- The page loop of `perform_search` of `fetch.py`: iterate over the
given page numbers, running `perform_search_in_pag_num` on each page's
links and stopping as soon as a page returns a falsy value
(`n_adds >= 1` false).  The second component records which pages were
visited (loaded), in order. -/
def searchPages (pages : Nat → List String) :
    List Nat → List Doc → List Doc × List Nat
  | [], st => (st, [])
  | p :: ps, st =>
    let r := searchPag (pages p) st
    if 1 ≤ r.2 then
      let q := searchPages pages ps r.1
      (q.1, p :: q.2)
    else (r.1, [p])

/-- `perform_search` of `fetch.py`: the total page count `pages_num` is
read once from the pagination control before the loop (here a
parameter fixed up front), then pages `1..pages_num` are visited in
order with the early exit of `searchPages`.  `pages` maps a page number
to the item links of that listing page. -/
def perform_search (pages_num : Nat) (pages : Nat → List String)
    (st : List Doc) : List Doc × List Nat :=
  searchPages pages (List.range' 1 pages_num) st

/-! ## Detail stage -/

/-- The content of one item detail page, as seen through the browser
collaborator: `w.get_obj` on each selector yields the element's
`textContent` or `none` when the element is missing, and the
`KeyFeatures_content__` blocks yield label/value text pairs. -/
structure DetailPage where
  titleEl : Option String
  subtitleEl : Option String
  priceEl : Option String
  fairnessEl : Option String
  features : List (String × String)

/-- Python dict lookup in `info_pairs_raw` (built by assignment in page
order, so the last occurrence of a label wins). -/
def pyDictGet (ps : List (String × String)) (k : String) : Option String :=
  (ps.reverse.find? (fun p => p.1 = k)).map (fun p => p.2)

/-- The walrus test `if (val := info_pairs_raw.get(label)):` — the label
must be present with a truthy (non-empty) value. -/
def truthyGet (ps : List (String × String)) (k : String) : Option String :=
  match pyDictGet ps k with
  | some v => if v = "" then none else some v
  | none => none

/-- A parser result as stored in a document field: Python `None`
becomes a JSON `null`. -/
def optNum : Option Nat → Value
  | some n => Value.num n
  | none => Value.null

/-- The `info_pairs` dict built by `fetch_details` of `fetch.py` from
the features panel: each mapped label, when present with a truthy raw
value, contributes its field(s) — the parse result is stored whatever
it is, a failed parse being stored as `None`. -/
def buildInfoPairs (fs : List (String × String)) : List (String × Value) :=
  (match truthyGet fs "Kilometraje" with
   | some v => [("Kilometraje", optNum (_parse_km v.toList))]
   | none => []) ++
  (match truthyGet fs "Potencia" with
   | some v => [("Potencia (Kw)", optNum (_parse_kw v.toList)),
                ("Potentia detalle", Value.str v)]
   | none => []) ++
  (match truthyGet fs "Tiempo de carga rápida" with
   | some v => [("Tiempo de carga rápida (mins)",
                 optNum (_parse_minutes v.toList))]
   | none => []) ++
  (match truthyGet fs "Autonomía (WLTP)" with
   | some v => [("Autonomía WLTP (Km)", optNum (_parse_km v.toList))]
   | none => []) ++
  (match truthyGet fs "Propietarios anteriores" with
   | some v => [("Propietarios anteriores", optNum (_parse_int v.toList))]
   | none => [])

/-- The body of `fetch_details` for a single item page: reading the
title, subtitle, price and price-fairness elements and building
`car_data` (without the final `needs_details` assignment).  Only the
subtitle read is guarded (`... if o else ''`); calling `get_attribute`
on a missing title, price or fairness element raises `AttributeError`,
modelled as `Except.error`. -/
def fetch_one (p : DetailPage) : Except Unit (List (String × Value)) :=
  match p.titleEl with
  | none => Except.error ()
  | some t =>
    let sub := match p.subtitleEl with
      | some s => s
      | none => ""
    match p.priceEl with
    | none => Except.error ()
    | some pr =>
      match p.fairnessEl with
      | none => Except.error ()
      | some fair =>
        Except.ok ([("title", Value.str t),
                    ("subtitle", Value.str sub),
                    ("price", optNum (_parse_price_eur pr.toList)),
                    ("price fairness", Value.str fair)] ++
                   buildInfoPairs p.features)

/-- `db_search.update(car_data, doc_ids=[...])` on a single document:
`car_data`'s fields (which include `needs_details = False`) overwrite
the document's fields. -/
def updateDetails (d : Doc) (cd : List (String × Value)) : Doc :=
  { d with needs_details := false, data := mergeFields d.data cd }

/-- Update the document at position (doc id) `i` of the store. -/
def dbUpdateAt (st : List Doc) (i : Nat) (cd : List (String × Value)) :
    List Doc :=
  match st.get? i with
  | some d => st.set i (updateDetails d cd)
  | none => st

/-- `db_search.search(Result.needs_details == True)` materialised as a
list before the loop: the pending documents with their doc ids. -/
def pendingSnapshot (st : List Doc) : List (Nat × Doc) :=
  st.enum.filter (fun p => p.2.needs_details)

/-- The loop of `fetch_details` of `fetch.py` over the pending
snapshot: each item's page is fetched and its document updated; an
exception (missing required element) aborts the whole loop, leaving the
store as it stands.  The boolean records whether the loop ran to
completion. -/
def fetch_details_loop (page : String → DetailPage) :
    List (Nat × Doc) → List Doc → List Doc × Bool
  | [], st => (st, true)
  | (i, d) :: rest, st =>
    match fetch_one (page d.URL) with
    | Except.error _ => (st, false)
    | Except.ok cd => fetch_details_loop page rest (dbUpdateAt st i cd)

/-- `fetch_details` of `fetch.py`: process every record that is pending
at the start of the call.  `page` maps an item URL to the content of
its detail page. -/
def fetch_details (page : String → DetailPage) (st : List Doc) :
    List Doc × Bool :=
  fetch_details_loop page (pendingSnapshot st) st

/-! ## Specification-side vocabulary for the claims -/

/-- A digit or the `.` thousands separator. -/
def digitOrDot (c : Char) : Bool := c.isDigit || c = '.'

/-- A well-grouped chunking of a digit string: a leading group of one to
three digits followed by groups of exactly three digits each. -/
def groupedOK : List (List Char) → Bool
  | [] => false
  | g0 :: rest =>
    1 ≤ g0.length && g0.length ≤ 3 && g0.all Char.isDigit &&
      rest.all (fun g => g.length == 3 && g.all Char.isDigit)

/-- The text of a chunking: the groups joined with `.` separators. -/
def joinDots : List (List Char) → List Char
  | [] => []
  | g0 :: rest => g0 ++ (rest.map (fun g => '.' :: g)).flatten

/-- The store after running the page loop over a list of page numbers
with no early exit (used to name the intermediate stores a run of
`perform_search` passes through). -/
def runSeqL (pages : Nat → List String) : List Nat → List Doc → List Doc
  | [], st => st
  | p :: ps, st => runSeqL pages ps (searchPag (pages p) st).1

/-- The number of new records the `i`-th page of the page-number list
`ps` inserts when `perform_search` reaches it (its store at that moment
being `runSeqL` over the earlier pages). -/
def newOnPage (pages : Nat → List String) (st : List Doc) (ps : List Nat)
    (i : Nat) : Nat :=
  (searchPag (pages (ps.getD i 0)) (runSeqL pages (ps.take i) st)).2

/-- One store-mutating operation of the crawler: a discovery step over
one listing page, or a detail-stage run. -/
inductive CrawlStep : List Doc → List Doc → Prop
  | discover : ∀ (st : List Doc) (hrefs : List String),
      CrawlStep st (perform_search_in_pag_num st hrefs).1
  | details : ∀ (st : List Doc) (page : String → DetailPage),
      CrawlStep st (fetch_details page st).1

example :
    clean_car_url "/es/detalles.html?id=398179510&sb=doc&ref=srp" =
      "/es/detalles.html?id=398179510" := by decide

example :
    (searchPag ["x?id=1&a", "x?id=2&b"] []).2 = 2 := by decide

example :
    (searchPag ["x?id=1&a", "x?id=2&b"] []).1 =
      [⟨"x?id=1", true, []⟩, ⟨"x?id=2", true, []⟩] := by decide

example :
    let pages : Nat → List String := fun p =>
      if p = 1 then ["A", "B"] else if p = 2 then ["A", "C"]
      else if p = 3 then ["A", "B"] else ["D"]
    (perform_search 4 pages []).2 = [1, 2, 3] := by decide

example :
    buildInfoPairs [("Kilometraje", "8.000 km"),
                    ("Potencia", "150 kW (204 cv)")] =
      [("Kilometraje", Value.num 8000),
       ("Potencia (Kw)", Value.num 150),
       ("Potentia detalle", Value.str "150 kW (204 cv)")] := by decide

example :
    buildInfoPairs [("Propietarios anteriores", "01")] =
      [("Propietarios anteriores", Value.null)] := by decide

example :
    (fetch_details
      (fun _ => ⟨some "T", none, some "1.000 €", some "fair",
                 [("Propietarios anteriores", "01")]⟩)
      [⟨"u", true, []⟩]).1 =
    [⟨"u", false,
      [("title", Value.str "T"), ("subtitle", Value.str ""),
       ("price", Value.num 1000), ("price fairness", Value.str "fair"),
       ("Propietarios anteriores", Value.null)]⟩] := by decide

example :
    (fetch_details
      (fun _ => ⟨some "T", some "S", some "1.000 €", none, []⟩)
      [⟨"u", true, []⟩]).1 = [⟨"u", true, []⟩] := by decide

example : _parse_int "0".toList = some 0 := by decide
example : _parse_int "3".toList = some 3 := by decide
example : _parse_int "  3  ".toList = some 3 := by decide
example : _parse_int "01".toList = none := by decide
example : _parse_int "1.000".toList = none := by decide
example : _parse_int "1 owner".toList = none := by decide
example : _parse_int "".toList = none := by decide

example : _parse_price_eur "1.000 €".toList = some 1000 := by decide
example : _parse_price_eur "49.547 €".toList = some 49547 := by decide
example : _parse_price_eur "0 €".toList = some 0 := by decide
example : _parse_price_eur "  500 €  ".toList = some 500 := by decide
example : _parse_price_eur "1.000.000 €".toList = some 1000000 := by decide
example : _parse_price_eur "49.547".toList = none := by decide
example : _parse_price_eur "49,547 €".toList = none := by decide
example : _parse_price_eur "49.547.50 €".toList = none := by decide
example : _parse_price_eur "49.54 €".toList = none := by decide
example : _parse_price_eur "€49.547".toList = none := by decide
example : _parse_price_eur "49.547 USD".toList = none := by decide
example : _parse_price_eur "49.547 € extra".toList = none := by decide
example : _parse_price_eur "49.547. €".toList = none := by decide

example : _parse_km "8 km".toList = some 8 := by decide
example : _parse_km "1.000 km".toList = some 1000 := by decide
example : _parse_km "12.345 km".toList = some 12345 := by decide
example : _parse_km "8.000 KM".toList = some 8000 := by decide
example : _parse_km "8. km".toList = none := by decide
example : _parse_km ".500 km".toList = none := by decide
example : _parse_km "8.00.0 km".toList = none := by decide
example : _parse_km "8,000 km".toList = none := by decide

example : _parse_kw "350 kW".toList = some 350 := by decide
example : _parse_kw "350 kW (476 cv)".toList = some 350 := by decide
example : _parse_kw "1.200 kW (1.632 cv)".toList = some 1200 := by decide
example : _parse_kw "  75 kW  ".toList = some 75 := by decide
example : _parse_kw "350kw".toList = none := by decide
example : _parse_kw "350.5 kW".toList = none := by decide
example : _parse_kw "350 kW extra".toList = none := by decide
example : _parse_kw "350 hp".toList = none := by decide
example : _parse_kw "350 kW (476 cv) x".toList = none := by decide

example : _parse_minutes "18 Min.".toList = some 18 := by decide
example : _parse_minutes "18 min".toList = some 18 := by decide
example : _parse_minutes "18 MIN".toList = some 18 := by decide
example : _parse_minutes "1.200 min.".toList = some 1200 := by decide
example : _parse_minutes "18.5 min".toList = none := by decide
example : _parse_minutes "18mins".toList = none := by decide
example : _parse_minutes "18 min extra".toList = none := by decide
example : _parse_minutes "18".toList = none := by decide

/-! ## Helper lemmas: character classes, `takeWhile` and `dropWhile` -/

lemma not_pySpace_of_digitOrDot {c : Char} (h : digitOrDot c = true) :
    pySpace c = false := by
  cases hp : pySpace c with
  | false => rfl
  | true =>
    exfalso
    simp only [pySpace, Bool.or_eq_true, decide_eq_true_eq] at hp
    rcases hp with ((((((((((h1|h1)|h1)|h1)|h1)|h1)|h1)|h1)|h1)|h1)|h1)|h1 <;>
      subst h1 <;> revert h <;> decide

lemma not_nbspSpace_of_digitOrDot {c : Char} (h : digitOrDot c = true) :
    nbspSpace c = false := by
  cases hp : nbspSpace c with
  | false => rfl
  | true =>
    exfalso
    simp only [nbspSpace, Bool.or_eq_true, decide_eq_true_eq] at hp
    rcases hp with h1|h1 <;> subst h1 <;> revert h <;> decide


lemma digitOrDot_of_isDigit {c : Char} (h : c.isDigit = true) :
    digitOrDot c = true := by
  simp [digitOrDot, h]

lemma takeWhile_append_all {p : Char → Bool} {a : List Char}
    (b : List Char) (ha : a.all p = true)
    (hb : ∀ c, b.head? = some c → p c = false) :
    (a ++ b).takeWhile p = a := by
  induction a with
  | nil =>
    simp only [List.nil_append]
    cases b with
    | nil => rfl
    | cons c t => simp [List.takeWhile_cons, hb c rfl]
  | cons x a ih =>
    simp only [List.all_cons, Bool.and_eq_true] at ha
    simp [List.takeWhile_cons, ha.1, ih ha.2]

lemma dropWhile_append_all {p : Char → Bool} {a : List Char}
    (b : List Char) (ha : a.all p = true)
    (hb : ∀ c, b.head? = some c → p c = false) :
    (a ++ b).dropWhile p = b := by
  induction a with
  | nil =>
    simp only [List.nil_append]
    cases b with
    | nil => rfl
    | cons c t => simp [List.dropWhile_cons, hb c rfl]
  | cons x a ih =>
    simp only [List.all_cons, Bool.and_eq_true] at ha
    simp [List.dropWhile_cons, ha.1, ih ha.2]

lemma head?_dropWhile_false {p : Char → Bool} (l : List Char) {c : Char}
    (h : (l.dropWhile p).head? = some c) : p c = false := by
  have := List.head?_dropWhile_not p l
  rw [h] at this
  exact this

/-! ## Helper lemmas: the grouped-integer token -/

lemma groupsAux_nil : groupsAux [] = some ([], []) := rfl

lemma groupsAux_cons_ne {c : Char} (t : List Char) (h : ¬ c = '.') :
    groupsAux (c :: t) = some ([], c :: t) := by
  rw [groupsAux.eq_def]
  split
  · rename_i a b c' rest heq
    injection heq with h1 h2
    exact absurd h1 h
  · rename_i x heq
    injection heq with h1 h2
    exact absurd h1 h
  · rfl

lemma groupsAux_dot4 (a b c : Char) (rest : List Char) :
    groupsAux ('.' :: a :: b :: c :: rest) =
      if a.isDigit && b.isDigit && c.isDigit && !(headIsDigit rest) then
        (groupsAux rest).map (fun p => (a :: b :: c :: p.1, p.2))
      else none := by
  simp [groupsAux]

lemma groupsAux_dot_short (t : List Char) (h : t.length < 3) :
    groupsAux ('.' :: t) = none := by
  rw [groupsAux.eq_def]
  split
  · rename_i a b c' rest heq
    injection heq with h1 h2
    subst h2
    simp at h
    omega
  · rfl
  · rename_i h1 h2
    exact absurd rfl (h2 t)

lemma groupsAux_sound (gss : List (List Char)) (r : List Char)
    (hg : ∀ g ∈ gss, g.length = 3 ∧ g.all Char.isDigit = true)
    (hr : headIsDigit r = false) (hr2 : r.head? ≠ some '.') :
    groupsAux ((gss.map (fun g => '.' :: g)).flatten ++ r) =
      some (gss.flatten, r) := by
  induction gss with
  | nil =>
    simp only [List.map_nil, List.flatten_nil, List.nil_append]
    cases r with
    | nil => rfl
    | cons c t =>
      have hc : ¬ c = '.' := by
        intro hc
        exact hr2 (by simp [hc])
      exact groupsAux_cons_ne t hc
  | cons g gss ih =>
    obtain ⟨a, b, c, rfl⟩ := List.length_eq_three.mp (hg g (by simp)).1
    have hd := (hg _ (List.mem_cons_self _ _)).2
    simp only [List.all_cons, List.all_nil, Bool.and_eq_true, Bool.and_true] at hd
    have hhead :
        headIsDigit ((gss.map (fun g => '.' :: g)).flatten ++ r) = false := by
      cases gss with
      | nil => simpa using hr
      | cons g' gss' => simp [headIsDigit]
    have ihg : ∀ g ∈ gss, g.length = 3 ∧ g.all Char.isDigit = true := by
      intro g hgmem
      exact hg g (List.mem_cons_of_mem _ hgmem)
    simp only [List.map_cons, List.flatten_cons, List.cons_append,
      List.nil_append]
    rw [groupsAux_dot4]
    rw [if_pos (by simp [hd.1, hd.2.1, hd.2.2, hhead])]
    rw [ih ihg]
    simp

lemma groupsAux_inv_fuel (n : Nat) :
    ∀ (t ds rest : List Char), t.length ≤ n →
    headIsDigit t = false → groupsAux t = some (ds, rest) →
    ∃ gss : List (List Char),
      (∀ g ∈ gss, g.length = 3 ∧ g.all Char.isDigit = true) ∧
      t = (gss.map (fun g => '.' :: g)).flatten ++ rest ∧
      ds = gss.flatten ∧
      headIsDigit rest = false ∧ rest.head? ≠ some '.' := by
  induction n with
  | zero =>
    intro t ds rest hlen ht h
    have ht0 : t = [] := List.length_eq_zero.mp (Nat.le_zero.mp hlen)
    subst ht0
    rw [groupsAux_nil] at h
    injection h with h
    injection h with h1 h2
    subst h1
    subst h2
    exact ⟨[], by simp, by simp, by simp, rfl, by simp⟩
  | succ n ih =>
    intro t ds rest hlen ht h
    cases t with
    | nil =>
      rw [groupsAux_nil] at h
      injection h with h
      injection h with h1 h2
      subst h1
      subst h2
      exact ⟨[], by simp, by simp, by simp, rfl, by simp⟩
    | cons c t' =>
      by_cases hc : c = '.'
      · subst hc
        rcases t' with _ | ⟨a, _ | ⟨b, _ | ⟨c', rest'⟩⟩⟩
        · rw [groupsAux_dot_short _ (by simp)] at h
          exact absurd h (by simp)
        · rw [groupsAux_dot_short _ (by simp)] at h
          exact absurd h (by simp)
        · rw [groupsAux_dot_short _ (by simp)] at h
          exact absurd h (by simp)
        · rw [groupsAux_dot4] at h
          by_cases hcond :
              (a.isDigit && b.isDigit && c'.isDigit &&
                !(headIsDigit rest')) = true
          · rw [if_pos hcond] at h
            simp only [Bool.and_eq_true, Bool.not_eq_true'] at hcond
            obtain ⟨⟨⟨ha, hb⟩, hc'⟩, hrest⟩ := hcond
            obtain ⟨⟨ds', rest''⟩, hg, heq⟩ := Option.map_eq_some'.mp h
            injection heq with h1 h2
            subst h2
            have hlen' : rest'.length ≤ n := by
              simp only [List.length_cons] at hlen
              omega
            obtain ⟨gss, hgss1, hgss2, hgss3, hgss4, hgss5⟩ :=
              ih rest' ds' _ hlen' hrest hg
            refine ⟨[a, b, c'] :: gss, ?_, ?_, ?_, hgss4, hgss5⟩
            · intro g hgmem
              rcases List.mem_cons.mp hgmem with h' | h'
              · subst h'
                exact ⟨by simp, by simp [ha, hb, hc']⟩
              · exact hgss1 g h'
            · simp only [List.map_cons, List.flatten_cons, List.cons_append,
                List.nil_append]
              rw [← hgss2]
            · simp [← h1, hgss3]
          · rw [if_neg hcond] at h
            exact absurd h (by simp)
      · rw [groupsAux_cons_ne t' hc] at h
        injection h with h
        injection h with h1 h2
        subst h1
        refine ⟨[], by simp, by simp [h2], by simp, ?_, ?_⟩
        · rw [← h2]
          exact ht
        · rw [← h2]
          simp only [List.head?_cons, ne_eq, Option.some.injEq]
          exact hc

lemma headIsDigit_false {l : List Char} (h : headIsDigit l = false) :
    ∀ c, l.head? = some c → c.isDigit = false := by
  intro c hc
  cases l with
  | nil => simp at hc
  | cons x t =>
    injection hc with hc
    subst hc
    simpa [headIsDigit] using h

lemma mem_takeWhile_pred {p : Char → Bool} {l : List Char} :
    (l.takeWhile p).all p = true := by
  induction l with
  | nil => rfl
  | cons x t ih =>
    rw [List.takeWhile_cons]
    by_cases hx : p x
    · simp [hx, ih]
    · simp [hx]

lemma groupedOK_iff (g0 : List Char) (rest : List (List Char)) :
    groupedOK (g0 :: rest) = true ↔
      (1 ≤ g0.length ∧ g0.length ≤ 3 ∧ g0.all Char.isDigit = true ∧
       ∀ g ∈ rest, g.length = 3 ∧ g.all Char.isDigit = true) := by
  simp only [groupedOK, Bool.and_eq_true, List.all_eq_true, beq_iff_eq,
    decide_eq_true_eq]
  constructor
  · rintro ⟨⟨⟨h1, h2⟩, h3⟩, h4⟩
    exact ⟨h1, h2, fun g hg => h3 g hg, fun g hg => (h4 g hg).imp id
      (fun hh c hc => hh c hc)⟩
  · rintro ⟨h1, h2, h3, h4⟩
    exact ⟨⟨⟨h1, h2⟩, fun g hg => h3 g hg⟩,
      fun g hg => ⟨(h4 g hg).1, fun c hc => (h4 g hg).2 c hc⟩⟩

lemma joinDots_all_digitOrDot {gs : List (List Char)}
    (h : groupedOK gs = true) : (joinDots gs).all digitOrDot = true := by
  cases gs with
  | nil => rfl
  | cons g0 rest =>
    rw [groupedOK_iff] at h
    obtain ⟨h1, h2, h3, h4⟩ := h
    rw [joinDots, List.all_append, Bool.and_eq_true]
    constructor
    · rw [List.all_eq_true] at h3 ⊢
      intro c hc
      exact digitOrDot_of_isDigit (h3 c hc)
    · rw [List.all_eq_true]
      intro c hc
      obtain ⟨l, hl, hcl⟩ := List.mem_flatten.mp hc
      obtain ⟨g, hg, rfl⟩ := List.mem_map.mp hl
      rcases List.mem_cons.mp hcl with rfl | hcg
      · simp [digitOrDot]
      · have := (h4 g hg).2
        rw [List.all_eq_true] at this
        exact digitOrDot_of_isDigit (this c hcg)

lemma joinDots_head {gs : List (List Char)} (h : groupedOK gs = true) :
    ∃ c t, joinDots gs = c :: t ∧ c.isDigit = true := by
  cases gs with
  | nil => simp [groupedOK] at h
  | cons g0 rest =>
    rw [groupedOK_iff] at h
    obtain ⟨h1, h2, h3, h4⟩ := h
    cases g0 with
    | nil => simp at h1
    | cons c g0' =>
      refine ⟨c, g0' ++ (rest.map (fun g => '.' :: g)).flatten, rfl, ?_⟩
      rw [List.all_eq_true] at h3
      exact h3 c (List.mem_cons_self _ _)

lemma parseGroupedInt_sound (gs : List (List Char)) (r : List Char)
    (h : groupedOK gs = true) (hr : headIsDigit r = false)
    (hr2 : r.head? ≠ some '.') :
    parseGroupedInt (joinDots gs ++ r) = some (gs.flatten, r) := by
  cases gs with
  | nil => simp [groupedOK] at h
  | cons g0 rest =>
    rw [groupedOK_iff] at h
    obtain ⟨h1, h2, h3, h4⟩ := h
    have hbhead : ∀ c,
        ((rest.map (fun g => '.' :: g)).flatten ++ r).head? = some c →
        c.isDigit = false := by
      intro c hc
      cases rest with
      | nil =>
        simp only [List.map_nil, List.flatten_nil, List.nil_append] at hc
        exact headIsDigit_false hr c hc
      | cons g' rest' =>
        obtain ⟨a', b', c', rfl⟩ :=
          List.length_eq_three.mp (h4 g' (List.mem_cons_self _ _)).1
        simp only [List.map_cons, List.flatten_cons, List.cons_append,
          List.head?_cons] at hc
        injection hc with hc
        subst hc
        decide
    have htake :
        ((g0 ++ ((rest.map (fun g => '.' :: g)).flatten ++ r)).takeWhile
          Char.isDigit) = g0 :=
      takeWhile_append_all _ h3 hbhead
    have hdrop :
        ((g0 ++ ((rest.map (fun g => '.' :: g)).flatten ++ r)).dropWhile
          Char.isDigit) = (rest.map (fun g => '.' :: g)).flatten ++ r :=
      dropWhile_append_all _ h3 hbhead
    have hshape : joinDots (g0 :: rest) ++ r =
        g0 ++ ((rest.map (fun g => '.' :: g)).flatten ++ r) := by
      simp [joinDots, List.append_assoc]
    rw [hshape]
    unfold parseGroupedInt
    simp only [htake, hdrop]
    rw [if_pos (by simp [h1, h2])]
    rw [groupsAux_sound rest r h4 hr hr2]
    simp [List.flatten_cons]

lemma parseGroupedInt_inv (s ds rest : List Char)
    (h : parseGroupedInt s = some (ds, rest)) :
    ∃ gs, groupedOK gs = true ∧ s = joinDots gs ++ rest ∧
      ds = gs.flatten ∧
      headIsDigit rest = false ∧ rest.head? ≠ some '.' := by
  unfold parseGroupedInt at h
  by_cases hcond : (1 ≤ (s.takeWhile Char.isDigit).length &&
      (s.takeWhile Char.isDigit).length ≤ 3) = true
  · rw [if_pos hcond] at h
    simp only [Bool.and_eq_true, decide_eq_true_eq] at hcond
    obtain ⟨⟨ds', rest'⟩, hg, heq⟩ := Option.map_eq_some'.mp h
    injection heq with h1 h2
    subst h2
    have hr0 : headIsDigit (s.dropWhile Char.isDigit) = false := by
      cases hd : (s.dropWhile Char.isDigit) with
      | nil => rfl
      | cons x t =>
        have := head?_dropWhile_false (p := Char.isDigit) s (c := x)
          (by rw [hd]; rfl)
        simpa [headIsDigit] using this
    obtain ⟨gss, hgss1, hgss2, hgss3, hgss4, hgss5⟩ :=
      groupsAux_inv_fuel (s.dropWhile Char.isDigit).length
        (s.dropWhile Char.isDigit) ds' rest' le_rfl hr0 hg
    refine ⟨s.takeWhile Char.isDigit :: gss, ?_, ?_, ?_, hgss4, hgss5⟩
    · rw [groupedOK_iff]
      exact ⟨hcond.1, hcond.2, mem_takeWhile_pred, hgss1⟩
    · conv_lhs => rw [← List.takeWhile_append_dropWhile (p := Char.isDigit)
        (l := s)]
      rw [hgss2, joinDots, List.append_assoc]
    · rw [← h1, hgss3]
      simp [List.flatten_cons]
  · rw [if_neg hcond] at h
    exact absurd h (by simp)

lemma append_digitOrDot_unique {a b c d : List Char}
    (hab : a ++ b = c ++ d)
    (ha : a.all digitOrDot = true) (hc : c.all digitOrDot = true)
    (hb : ∀ x, b.head? = some x → digitOrDot x = false)
    (hd : ∀ x, d.head? = some x → digitOrDot x = false) :
    a = c ∧ b = d := by
  have h1 : (a ++ b).takeWhile digitOrDot = a := takeWhile_append_all _ ha hb
  have h2 : (c ++ d).takeWhile digitOrDot = c := takeWhile_append_all _ hc hd
  rw [hab, h2] at h1
  subst h1
  exact ⟨rfl, List.append_cancel_left hab⟩

lemma dropWhile_pySpace_joinDots {gs : List (List Char)}
    (h : groupedOK gs = true) (r : List Char) :
    (joinDots gs ++ r).dropWhile pySpace = joinDots gs ++ r := by
  obtain ⟨c, t, hjoin, hcdig⟩ := joinDots_head h
  have hc : pySpace c = false :=
    not_pySpace_of_digitOrDot (digitOrDot_of_isDigit hcdig)
  rw [hjoin, List.cons_append, List.dropWhile_cons_of_neg (by simp [hc])]

lemma parse_price_eur_grouped (gs : List (List Char))
    (h : groupedOK gs = true) :
    _parse_price_eur (joinDots gs ++ [' ', '€']) =
      some (digitsToNat gs.flatten) := by
  unfold _parse_price_eur
  rw [dropWhile_pySpace_joinDots h,
    parseGroupedInt_sound gs [' ', '€'] h (by decide) (by decide)]
  rfl

lemma parse_km_grouped (gs : List (List Char)) (h : groupedOK gs = true) :
    _parse_km (joinDots gs ++ [' ', 'k', 'm']) =
      some (digitsToNat gs.flatten) := by
  unfold _parse_km
  rw [dropWhile_pySpace_joinDots h,
    parseGroupedInt_sound gs [' ', 'k', 'm'] h (by decide) (by decide)]
  rfl

lemma parse_kw_grouped (gs : List (List Char)) (h : groupedOK gs = true) :
    _parse_kw (joinDots gs ++ [' ', 'k', 'W']) =
      some (digitsToNat gs.flatten) := by
  unfold _parse_kw
  rw [dropWhile_pySpace_joinDots h,
    parseGroupedInt_sound gs [' ', 'k', 'W'] h (by decide) (by decide)]
  rfl

lemma parse_minutes_grouped (gs : List (List Char))
    (h : groupedOK gs = true) :
    _parse_minutes (joinDots gs ++ [' ', 'm', 'i', 'n']) =
      some (digitsToNat gs.flatten) := by
  unfold _parse_minutes
  rw [dropWhile_pySpace_joinDots h,
    parseGroupedInt_sound gs [' ', 'm', 'i', 'n'] h (by decide) (by decide)]
  rfl

lemma parseGroupedInt_bad (s u : List Char) {c0 : Char} {u' : List Char}
    (hu : u = c0 :: u') (hc0 : digitOrDot c0 = false)
    (hs : s.all digitOrDot = true)
    (hbad : ∀ gs, groupedOK gs = true → joinDots gs ≠ s) :
    parseGroupedInt (s ++ u) = none := by
  cases hres : parseGroupedInt (s ++ u) with
  | none => rfl
  | some p =>
    exfalso
    obtain ⟨ds, rest⟩ := p
    obtain ⟨gs, hg1, hg2, hg3, hg4, hg5⟩ := parseGroupedInt_inv _ _ _ hres
    have hdrest : ∀ x, rest.head? = some x → digitOrDot x = false := by
      intro x hx
      have h1 := headIsDigit_false hg4 x hx
      have h2 : ¬ x = '.' := by
        intro hxe
        subst hxe
        exact hg5 hx
      simp [digitOrDot, h1, h2]
    have huh : ∀ x, u.head? = some x → digitOrDot x = false := by
      intro x hx
      rw [hu] at hx
      injection hx with hx
      subst hx
      exact hc0
    obtain ⟨heq1, _⟩ := append_digitOrDot_unique hg2 hs
      (joinDots_all_digitOrDot hg1) huh hdrest
    exact hbad gs hg1 heq1.symm

lemma all_digitOrDot_head {s' : List Char} {c : Char}
    (hs : ((c :: s').all digitOrDot) = true) :
    pySpace c = false := by
  rw [List.all_cons, Bool.and_eq_true] at hs
  exact not_pySpace_of_digitOrDot hs.1

lemma parse_price_eur_bad (s : List Char) (hs : s.all digitOrDot = true)
    (hbad : ∀ gs, groupedOK gs = true → joinDots gs ≠ s) :
    _parse_price_eur (s ++ [' ', '€']) = none := by
  cases s with
  | nil => decide
  | cons c s' =>
    unfold _parse_price_eur
    rw [List.cons_append,
      List.dropWhile_cons_of_neg (by simp [all_digitOrDot_head hs]),
      ← List.cons_append,
      parseGroupedInt_bad _ _ rfl (by decide) hs hbad]

lemma parse_km_bad (s : List Char) (hs : s.all digitOrDot = true)
    (hbad : ∀ gs, groupedOK gs = true → joinDots gs ≠ s) :
    _parse_km (s ++ [' ', 'k', 'm']) = none := by
  cases s with
  | nil => decide
  | cons c s' =>
    unfold _parse_km
    rw [List.cons_append,
      List.dropWhile_cons_of_neg (by simp [all_digitOrDot_head hs]),
      ← List.cons_append,
      parseGroupedInt_bad _ _ rfl (by decide) hs hbad]

lemma parse_kw_bad (s : List Char) (hs : s.all digitOrDot = true)
    (hbad : ∀ gs, groupedOK gs = true → joinDots gs ≠ s) :
    _parse_kw (s ++ [' ', 'k', 'W']) = none := by
  cases s with
  | nil => decide
  | cons c s' =>
    unfold _parse_kw
    rw [List.cons_append,
      List.dropWhile_cons_of_neg (by simp [all_digitOrDot_head hs]),
      ← List.cons_append,
      parseGroupedInt_bad _ _ rfl (by decide) hs hbad]

lemma parse_minutes_bad (s : List Char) (hs : s.all digitOrDot = true)
    (hbad : ∀ gs, groupedOK gs = true → joinDots gs ≠ s) :
    _parse_minutes (s ++ [' ', 'm', 'i', 'n']) = none := by
  cases s with
  | nil => decide
  | cons c s' =>
    unfold _parse_minutes
    rw [List.cons_append,
      List.dropWhile_cons_of_neg (by simp [all_digitOrDot_head hs]),
      ← List.cons_append,
      parseGroupedInt_bad _ _ rfl (by decide) hs hbad]

/-! ## Helper lemmas: the kW grammar -/

lemma matchCI_kw_inv {r1 r2 : List Char}
    (h : matchCI ['k', 'w'] r1 = some r2) :
    ∃ a b, r1 = a :: b :: r2 ∧ lowerA a = 'k' ∧ lowerA b = 'w' := by
  cases r1 with
  | nil => exact absurd h (by simp [matchCI])
  | cons a t =>
    cases t with
    | nil =>
      unfold matchCI at h
      by_cases ha : lowerA a = lowerA 'k'
      · rw [if_pos ha] at h
        exact absurd h (by simp [matchCI])
      · rw [if_neg ha] at h
        exact absurd h (by simp)
    | cons b u =>
      unfold matchCI at h
      by_cases ha : lowerA a = lowerA 'k'
      · rw [if_pos ha] at h
        unfold matchCI at h
        by_cases hb : lowerA b = lowerA 'w'
        · rw [if_pos hb] at h
          unfold matchCI at h
          injection h with h
          subst h
          refine ⟨a, b, rfl, ?_, ?_⟩
          · rw [ha]
            decide
          · rw [hb]
            decide
        · rw [if_neg hb] at h
          exact absurd h (by simp)
      · rw [if_neg ha] at h
        exact absurd h (by simp)

lemma matchCI_kw_cons (a b : Char) (z : List Char)
    (ha : lowerA a = 'k') (hb : lowerA b = 'w') :
    matchCI ['k', 'w'] (a :: b :: z) = some z := by
  unfold matchCI
  rw [ha, if_pos (by decide)]
  unfold matchCI
  rw [hb, if_pos (by decide)]
  rfl

lemma kwTail_inv {r : List Char} (h : kwTail r = true) :
    r.all pySpace = true ∨
    ∃ ws2 mid ws3, r = ws2 ++ '(' :: (mid ++ ')' :: ws3) ∧
      ws2.all pySpace = true ∧ ws3.all pySpace = true ∧
      mid.any (fun c => c = '\n') = false := by
  unfold kwTail at h
  by_cases hall : r.all pySpace = true
  · exact Or.inl hall
  · rw [if_neg (by simpa using hall)] at h
    right
    split at h
    · rename_i rest heq
      split at h
      · rename_i midRev heq2
        rw [Bool.not_eq_true'] at h
        have hrest : rest = midRev.reverse ++ ')' ::
            (rest.reverse.takeWhile pySpace).reverse := by
          have h0 : rest.reverse = rest.reverse.takeWhile pySpace ++
              (')' :: midRev) := by
            conv_lhs => rw [← List.takeWhile_append_dropWhile
              (p := pySpace) (l := rest.reverse)]
            rw [heq2]
          have h1 := congrArg List.reverse h0
          rw [List.reverse_reverse, List.reverse_append] at h1
          simpa using h1
        have hr : r = r.takeWhile pySpace ++ '(' ::
            (midRev.reverse ++ ')' ::
              (rest.reverse.takeWhile pySpace).reverse) := by
          conv_lhs => rw [← List.takeWhile_append_dropWhile
            (p := pySpace) (l := r), heq]
          rw [← hrest]
        exact ⟨r.takeWhile pySpace, midRev.reverse,
          (rest.reverse.takeWhile pySpace).reverse, hr, mem_takeWhile_pred,
          by simp [mem_takeWhile_pred], by simpa using h⟩
      · exact absurd h (by simp)
    · exact absurd h (by simp)

lemma kwTail_one_paren (mid : List Char)
    (hmid : mid.any (fun c => c = '\n') = false) :
    kwTail (' ' :: '(' :: (mid ++ [')'])) = true := by
  unfold kwTail
  rw [if_neg (by simp [pySpace])]
  have hd : (' ' :: '(' :: (mid ++ [')'])).dropWhile pySpace =
      '(' :: (mid ++ [')']) := by
    rw [List.dropWhile_cons_of_pos (by decide),
      List.dropWhile_cons_of_neg (by decide)]
  rw [hd]
  have hrev : (mid ++ [')']).reverse = ')' :: mid.reverse := by
    rw [List.reverse_append]
    rfl
  show (match (mid ++ [')']).reverse.dropWhile pySpace with
    | ')' :: midRev => !(midRev.any (fun c => c = '\n'))
    | _ => false) = true
  rw [hrev, List.dropWhile_cons_of_neg (by decide)]
  simp [hmid]

lemma parse_kw_body (s ds r : List Char)
    (hpg : parseGroupedInt (s.dropWhile pySpace) = some (ds, r)) :
    _parse_kw s =
      (if (r.dropWhile pySpace).length < r.length then
        match matchCI ['k', 'w'] (r.dropWhile pySpace) with
        | some r2 => if kwTail r2 then some (digitsToNat ds) else none
        | none => none
      else none) := by
  unfold _parse_kw
  rw [hpg]

lemma takeWhile_pySpace_ne_nil {r : List Char}
    (hlen : (r.dropWhile pySpace).length < r.length) :
    r.takeWhile pySpace ≠ [] := by
  intro hnil
  have := List.takeWhile_append_dropWhile (p := pySpace) (l := r)
  rw [hnil, List.nil_append] at this
  rw [this] at hlen
  exact Nat.lt_irrefl _ hlen

lemma parse_kw_sound (s : List Char) (v : Nat) (h : _parse_kw s = some v) :
    ∃ ws0 gs ws1 a b rest,
      s = ws0 ++ joinDots gs ++ ws1 ++ a :: b :: rest ∧
      ws0.all pySpace = true ∧
      groupedOK gs = true ∧
      v = digitsToNat gs.flatten ∧
      ws1 ≠ [] ∧ ws1.all pySpace = true ∧
      lowerA a = 'k' ∧ lowerA b = 'w' ∧
      (rest.all pySpace = true ∨
       ∃ ws2 mid ws3, rest = ws2 ++ '(' :: (mid ++ ')' :: ws3) ∧
         ws2.all pySpace = true ∧ ws3.all pySpace = true ∧
         mid.any (fun c => c = '\n') = false) := by
  cases hpg : parseGroupedInt (s.dropWhile pySpace) with
  | none =>
    rw [_parse_kw, hpg] at h
    exact absurd h (by simp)
  | some p =>
    obtain ⟨ds, r⟩ := p
    rw [parse_kw_body s ds r hpg] at h
    by_cases hlen : (r.dropWhile pySpace).length < r.length
    · rw [if_pos hlen] at h
      cases hm : matchCI ['k', 'w'] (r.dropWhile pySpace) with
      | none =>
        rw [hm] at h
        exact absurd h (by simp)
      | some r2 =>
        rw [hm] at h
        dsimp only at h
        by_cases hkt : kwTail r2 = true
        · rw [if_pos hkt] at h
          injection h with h
          obtain ⟨gs, hg1, hg2, hg3, hg4, hg5⟩ := parseGroupedInt_inv _ _ _ hpg
          obtain ⟨a, b, hr1, hA, hB⟩ := matchCI_kw_inv hm
          refine ⟨s.takeWhile pySpace, gs, r.takeWhile pySpace, a, b, r2,
            ?_, mem_takeWhile_pred, hg1, by rw [← h, hg3],
            takeWhile_pySpace_ne_nil hlen, mem_takeWhile_pred, hA, hB,
            kwTail_inv hkt⟩
          conv_lhs => rw [← List.takeWhile_append_dropWhile
            (p := pySpace) (l := s), hg2]
          conv_lhs => rw [← List.takeWhile_append_dropWhile
            (p := pySpace) (l := r), hr1]
          simp [List.append_assoc]
        · rw [if_neg hkt] at h
          exact absurd h (by simp)
    · rw [if_neg hlen] at h
      exact absurd h (by simp)

lemma parse_kw_one_paren (gs : List (List Char)) (mid : List Char)
    (hgs : groupedOK gs = true)
    (hmid : mid.any (fun c => c = '\n') = false) :
    _parse_kw (joinDots gs ++
        (' ' :: 'k' :: 'W' :: ' ' :: '(' :: (mid ++ [')']))) =
      some (digitsToNat gs.flatten) := by
  have hpg : parseGroupedInt ((joinDots gs ++
      (' ' :: 'k' :: 'W' :: ' ' :: '(' :: (mid ++ [')']))).dropWhile
        pySpace) = some (gs.flatten,
          ' ' :: 'k' :: 'W' :: ' ' :: '(' :: (mid ++ [')'])) := by
    rw [dropWhile_pySpace_joinDots hgs]
    exact parseGroupedInt_sound gs _ hgs (by simp [headIsDigit]) (by simp)
  rw [parse_kw_body _ _ _ hpg]
  have hd : (' ' :: 'k' :: 'W' :: ' ' :: '(' ::
      (mid ++ [')'])).dropWhile pySpace =
      'k' :: 'W' :: ' ' :: '(' :: (mid ++ [')']) := by
    rw [List.dropWhile_cons_of_pos (by decide),
      List.dropWhile_cons_of_neg (by decide)]
  rw [hd, if_pos (by simp), matchCI_kw_cons 'k' 'W' _ (by decide) (by decide)]
  dsimp only
  rw [if_pos (kwTail_one_paren mid hmid)]

/-! ## Helper lemmas: the record store and the discovery stage -/

lemma dbGetByURL_append_none {st l : List Doc} {u : String}
    (h : dbGetByURL (st ++ l) u = none) : dbGetByURL st u = none := by
  unfold dbGetByURL at *
  rw [List.find?_append] at h
  exact (Option.or_eq_none.mp h).1

lemma dbGetByURL_append_isSome {st : List Doc} (l : List Doc) {u : String}
    (h : (dbGetByURL st u).isSome = true) :
    (dbGetByURL (st ++ l) u).isSome = true := by
  unfold dbGetByURL at *
  rw [List.find?_append]
  obtain ⟨d, hd⟩ := Option.isSome_iff_exists.mp h
  rw [hd]
  rfl

lemma searchPag_store (hs : List String) : ∀ (st : List Doc),
    ∃ ds : List Doc,
      (searchPag hs st).1 = st ++ ds ∧
      (searchPag hs st).2 = ds.length ∧
      ∀ d ∈ ds, d.needs_details = true ∧ d.data = [] ∧
        dbGetByURL st d.URL = none ∧
        ∃ h ∈ hs, d.URL = clean_car_url h := by
  induction hs with
  | nil =>
    intro st
    exact ⟨[], by simp [searchPag], by simp [searchPag], by simp⟩
  | cons h hs ih =>
    intro st
    cases hget : dbGetByURL st (clean_car_url h) with
    | some d0 =>
      obtain ⟨ds, h1, h2, h3⟩ := ih st
      refine ⟨ds, by simp [searchPag, hget, h1], by simp [searchPag, hget, h2],
        ?_⟩
      intro d hd
      obtain ⟨ha, hb, hc, h', hmem, hurl⟩ := h3 d hd
      exact ⟨ha, hb, hc, h', List.mem_cons_of_mem _ hmem, hurl⟩
    | none =>
      obtain ⟨ds, h1, h2, h3⟩ :=
        ih (st ++ [⟨clean_car_url h, true, []⟩])
      refine ⟨⟨clean_car_url h, true, []⟩ :: ds, ?_, ?_, ?_⟩
      · simp only [searchPag, hget, h1, List.append_assoc,
          List.singleton_append]
      · simp only [searchPag, hget, h2, List.length_cons]
      · intro d hd
        rcases List.mem_cons.mp hd with rfl | hdmem
        · exact ⟨rfl, rfl, hget, h, List.mem_cons_self _ _, rfl⟩
        · obtain ⟨ha, hb, hc, h', hmem, hurl⟩ := h3 d hdmem
          exact ⟨ha, hb, dbGetByURL_append_none hc, h',
            List.mem_cons_of_mem _ hmem, hurl⟩

lemma searchPag_mem (hs : List String) : ∀ (st : List Doc) (h : String),
    h ∈ hs →
    (dbGetByURL (searchPag hs st).1 (clean_car_url h)).isSome = true := by
  induction hs with
  | nil =>
    intro st h hmem
    simp at hmem
  | cons h0 hs ih =>
    intro st h hmem
    cases hget : dbGetByURL st (clean_car_url h0) with
    | some d0 =>
      rcases List.mem_cons.mp hmem with rfl | hmem'
      · obtain ⟨ds, h1, _, _⟩ := searchPag_store hs st
        simp only [searchPag, hget, h1]
        exact dbGetByURL_append_isSome ds (by simp [hget])
      · simp only [searchPag, hget]
        exact ih st h hmem'
    | none =>
      rcases List.mem_cons.mp hmem with rfl | hmem'
      · obtain ⟨ds, h1, _, _⟩ :=
          searchPag_store hs (st ++ [⟨clean_car_url h, true, []⟩])
        simp only [searchPag, hget, h1]
        apply dbGetByURL_append_isSome
        unfold dbGetByURL at *
        rw [List.find?_append, hget]
        simp
      · simp only [searchPag, hget]
        exact ih _ h hmem'

lemma searchPag_all_present (hs : List String) : ∀ (st : List Doc),
    (∀ h ∈ hs, (dbGetByURL st (clean_car_url h)).isSome = true) →
    searchPag hs st = (st, 0) := by
  induction hs with
  | nil =>
    intro st _
    rfl
  | cons h0 hs ih =>
    intro st hall
    cases hget : dbGetByURL st (clean_car_url h0) with
    | none =>
      have := hall h0 (List.mem_cons_self _ _)
      rw [hget] at this
      exact absurd this (by simp)
    | some d0 =>
      simp only [searchPag, hget]
      exact ih st (fun h hm => hall h (List.mem_cons_of_mem _ hm))

/-! ## Helper lemmas: documents, field lists and the detail stage -/

lemma fget_append_none {a b : List (String × Value)} {k : String}
    (h : a.find? (fun p => p.1 = k) = none) :
    fget (a ++ b) k = fget b k := by
  unfold fget
  rw [List.find?_append, h, Option.none_or]

lemma fget_mergeFields (old new : List (String × Value)) (k : String)
    (h : (fget new k).isSome = true) :
    fget (mergeFields old new) k = fget new k := by
  unfold mergeFields
  apply fget_append_none
  rw [List.find?_eq_none]
  intro p hp
  obtain ⟨hpold, hpf⟩ := List.mem_filter.mp hp
  simp only [Bool.not_eq_true', List.any_eq_false, decide_eq_false_iff_not]
    at hpf
  obtain ⟨v, hv⟩ := Option.isSome_iff_exists.mp h
  unfold fget at hv
  obtain ⟨q, hq, hqeq⟩ := Option.map_eq_some'.mp hv
  have hqk : q.1 = k := by
    have := List.find?_some hq
    simpa using this
  have hqmem := List.mem_of_find?_eq_some hq
  simp only [decide_eq_true_eq]
  intro hpk
  exact hpf q hqmem (by rw [hqk, hpk]; simp)

lemma pendingSnapshot_get {st : List Doc} {j : Nat} {dj : Doc}
    (h : (j, dj) ∈ pendingSnapshot st) :
    st.get? j = some dj ∧ dj.needs_details = true := by
  unfold pendingSnapshot at h
  obtain ⟨hmem, hfil⟩ := List.mem_filter.mp h
  constructor
  · rw [List.get?_eq_getElem?]
    exact (List.mk_mem_enum_iff_getElem?).mp hmem
  · simpa using hfil

lemma dbUpdateAt_get_ne {st : List Doc} {i j : Nat}
    {cd : List (String × Value)} (h : ¬ i = j) :
    (dbUpdateAt st i cd).get? j = st.get? j := by
  unfold dbUpdateAt
  cases hg : st.get? i with
  | none => rfl
  | some d => exact List.get?_set_ne _ _ h

lemma dbUpdateAt_get_eq {st : List Doc} {i : Nat} {d : Doc}
    {cd : List (String × Value)} (h : st.get? i = some d) :
    (dbUpdateAt st i cd).get? i = some (updateDetails d cd) := by
  unfold dbUpdateAt
  rw [h]
  have hlt : i < st.length := by
    obtain ⟨hl, _⟩ := List.get?_eq_some.mp h
    exact hl
  exact List.get?_set_eq_of_lt _ hlt

lemma fetch_one_required {p : DetailPage}
    (h : p.titleEl = none ∨ p.priceEl = none) :
    fetch_one p = Except.error () := by
  unfold fetch_one
  rcases h with h | h
  · rw [h]
  · rw [h]
    cases p.titleEl with
    | none => rfl
    | some t => rfl

lemma fetch_one_fairness_none {p : DetailPage} (h : p.fairnessEl = none) :
    fetch_one p = Except.error () := by
  unfold fetch_one
  cases p.titleEl with
  | none => rfl
  | some t =>
    cases p.priceEl with
    | none => rfl
    | some pr =>
      rw [h]

lemma fetch_details_loop_skip (page : String → DetailPage) (i : Nat) :
    ∀ (L : List (Nat × Doc)) (st : List Doc),
    (∀ p ∈ L, p.1 = i → fetch_one (page p.2.URL) = Except.error ()) →
    (fetch_details_loop page L st).1.get? i = st.get? i := by
  intro L
  induction L with
  | nil =>
    intro st _
    rfl
  | cons pr rest ih =>
    intro st hall
    obtain ⟨j, dj⟩ := pr
    cases hf : fetch_one (page dj.URL) with
    | error e =>
      simp only [fetch_details_loop, hf]
    | ok cd =>
      simp only [fetch_details_loop, hf]
      have hji : ¬ j = i := by
        intro hji
        have := hall (j, dj) (List.mem_cons_self _ _) hji
        rw [hf] at this
        exact absurd this (by simp)
      rw [ih (dbUpdateAt st j cd)
        (fun p hp hpi => hall p (List.mem_cons_of_mem _ hp) hpi)]
      exact dbUpdateAt_get_ne hji

lemma fetch_details_loop_mono (page : String → DetailPage) (i : Nat) :
    ∀ (L : List (Nat × Doc)) (st : List Doc) (d : Doc),
    st.get? i = some d →
    ∃ d', (fetch_details_loop page L st).1.get? i = some d' ∧
      (d.needs_details = false → d'.needs_details = false) := by
  intro L
  induction L with
  | nil =>
    intro st d hd
    exact ⟨d, hd, fun h => h⟩
  | cons pr rest ih =>
    intro st d hd
    obtain ⟨j, dj⟩ := pr
    cases hf : fetch_one (page dj.URL) with
    | error e =>
      simp only [fetch_details_loop, hf]
      exact ⟨d, hd, fun h => h⟩
    | ok cd =>
      simp only [fetch_details_loop, hf]
      by_cases hji : j = i
      · subst hji
        cases hj : st.get? j with
        | none =>
          rw [hj] at hd
          exact absurd hd (by simp)
        | some e =>
          rw [hj] at hd
          injection hd with hd
          subst hd
          obtain ⟨d', hd', himp⟩ := ih (dbUpdateAt st j cd)
            (updateDetails e cd) (dbUpdateAt_get_eq hj)
          exact ⟨d', hd', fun _ => himp rfl⟩
      · obtain ⟨d', hd', himp⟩ := ih (dbUpdateAt st j cd) d
          (by rw [dbUpdateAt_get_ne hji]; exact hd)
        exact ⟨d', hd', himp⟩

/-! ## Helper lemmas: the page loop of `perform_search` -/

lemma newOnPage_zero (pages : Nat → List String) (st : List Doc) (p : Nat)
    (ps : List Nat) :
    newOnPage pages st (p :: ps) 0 = (searchPag (pages p) st).2 := by
  simp [newOnPage, runSeqL, List.getD]

lemma newOnPage_succ (pages : Nat → List String) (st : List Doc) (p : Nat)
    (ps : List Nat) (i : Nat) :
    newOnPage pages st (p :: ps) (i + 1) =
      newOnPage pages (searchPag (pages p) st).1 ps i := by
  simp [newOnPage, runSeqL, List.getD, List.take_succ_cons]

lemma searchPages_cons_pos (pages : Nat → List String) (p : Nat)
    (ps : List Nat) (st : List Doc) (h : 1 ≤ (searchPag (pages p) st).2) :
    searchPages pages (p :: ps) st =
      ((searchPages pages ps (searchPag (pages p) st).1).1,
       p :: (searchPages pages ps (searchPag (pages p) st).1).2) := by
  simp only [searchPages]
  rw [if_pos h]

lemma searchPages_cons_neg (pages : Nat → List String) (p : Nat)
    (ps : List Nat) (st : List Doc)
    (h : ¬ 1 ≤ (searchPag (pages p) st).2) :
    searchPages pages (p :: ps) st = ((searchPag (pages p) st).1, [p]) := by
  simp only [searchPages]
  rw [if_neg h]

lemma searchPages_spec (pages : Nat → List String) :
    ∀ (ps : List Nat) (st : List Doc),
    ∃ k, k ≤ ps.length ∧
      (searchPages pages ps st).2 = ps.take k ∧
      (∀ i, i + 1 < k → 1 ≤ newOnPage pages st ps i) ∧
      (k < ps.length → 0 < k ∧ newOnPage pages st ps (k - 1) = 0) := by
  intro ps
  induction ps with
  | nil =>
    intro st
    refine ⟨0, by simp, by simp [searchPages], ?_, by simp⟩
    intro i hi
    omega
  | cons p ps ih =>
    intro st
    by_cases hc : 1 ≤ (searchPag (pages p) st).2
    · obtain ⟨k, hk1, hk2, hk3, hk4⟩ := ih (searchPag (pages p) st).1
      refine ⟨k + 1, by simpa using hk1, ?_, ?_, ?_⟩
      · rw [searchPages_cons_pos pages p ps st hc, List.take_succ_cons, hk2]
      · intro i hi
        cases i with
        | zero =>
          rw [newOnPage_zero]
          exact hc
        | succ i' =>
          rw [newOnPage_succ]
          exact hk3 i' (by omega)
      · intro hlt
        have hklt : k < ps.length := by simpa using hlt
        obtain ⟨hk0, hkz⟩ := hk4 hklt
        refine ⟨by omega, ?_⟩
        have hidx : k + 1 - 1 = (k - 1) + 1 := by omega
        rw [hidx, newOnPage_succ]
        exact hkz
    · refine ⟨1, by simp, ?_, ?_, ?_⟩
      · rw [searchPages_cons_neg pages p ps st hc, List.take_succ_cons,
          List.take_zero]
      · intro i hi
        omega
      · intro _
        refine ⟨by omega, ?_⟩
        rw [newOnPage_zero]
        omega

lemma take_range' : ∀ (n k a : Nat), k ≤ n →
    (List.range' a n).take k = List.range' a k := by
  intro n
  induction n with
  | zero =>
    intro k a hk
    have : k = 0 := by omega
    subst this
    simp
  | succ n ih =>
    intro k a hk
    cases k with
    | zero => simp
    | succ k' =>
      rw [List.range'_succ, List.take_succ_cons, List.range'_succ,
        ih k' (a + 1) (by omega)]

lemma fget_buildInfoPairs_km (fs : List (String × String)) (v : String)
    (hv : truthyGet fs "Kilometraje" = some v) :
    fget (buildInfoPairs fs) "Kilometraje" =
      some (optNum (_parse_km v.toList)) := by
  unfold buildInfoPairs
  rw [hv]
  cases h2 : truthyGet fs "Potencia" <;>
    cases h3 : truthyGet fs "Tiempo de carga rápida" <;>
      cases h4 : truthyGet fs "Autonomía (WLTP)" <;>
        cases h5 : truthyGet fs "Propietarios anteriores" <;> rfl

lemma fget_buildInfoPairs_kw (fs : List (String × String)) (v : String)
    (hv : truthyGet fs "Potencia" = some v) :
    fget (buildInfoPairs fs) "Potencia (Kw)" =
      some (optNum (_parse_kw v.toList)) := by
  unfold buildInfoPairs
  rw [hv]
  cases h1 : truthyGet fs "Kilometraje" <;>
    cases h3 : truthyGet fs "Tiempo de carga rápida" <;>
      cases h4 : truthyGet fs "Autonomía (WLTP)" <;>
        cases h5 : truthyGet fs "Propietarios anteriores" <;> rfl

lemma fget_buildInfoPairs_minutes (fs : List (String × String)) (v : String)
    (hv : truthyGet fs "Tiempo de carga rápida" = some v) :
    fget (buildInfoPairs fs) "Tiempo de carga rápida (mins)" =
      some (optNum (_parse_minutes v.toList)) := by
  unfold buildInfoPairs
  rw [hv]
  cases h1 : truthyGet fs "Kilometraje" <;>
    cases h2 : truthyGet fs "Potencia" <;>
      cases h4 : truthyGet fs "Autonomía (WLTP)" <;>
        cases h5 : truthyGet fs "Propietarios anteriores" <;> rfl

lemma fget_buildInfoPairs_wltp (fs : List (String × String)) (v : String)
    (hv : truthyGet fs "Autonomía (WLTP)" = some v) :
    fget (buildInfoPairs fs) "Autonomía WLTP (Km)" =
      some (optNum (_parse_km v.toList)) := by
  unfold buildInfoPairs
  rw [hv]
  cases h1 : truthyGet fs "Kilometraje" <;>
    cases h2 : truthyGet fs "Potencia" <;>
      cases h3 : truthyGet fs "Tiempo de carga rápida" <;>
        cases h5 : truthyGet fs "Propietarios anteriores" <;> rfl

lemma fget_buildInfoPairs_owners (fs : List (String × String)) (v : String)
    (hv : truthyGet fs "Propietarios anteriores" = some v) :
    fget (buildInfoPairs fs) "Propietarios anteriores" =
      some (optNum (_parse_int v.toList)) := by
  unfold buildInfoPairs
  rw [hv]
  cases h1 : truthyGet fs "Kilometraje" <;>
    cases h2 : truthyGet fs "Potencia" <;>
      cases h3 : truthyGet fs "Tiempo de carga rápida" <;>
        cases h4 : truthyGet fs "Autonomía (WLTP)" <;> rfl

/-! ## Claims -/

/-- C1, counterexample: with a features panel containing
`("Propietarios anteriores", "01")`, the completed record (its
`needs_details` is `false`) holds the key `Propietarios anteriores`
*present with the null marker* (`Value.null`, Python's `None`), not
absent as the claim states. -/
theorem c1_counterexample :
    ((fetch_details
        (fun _ => ⟨some "T", none, some "1.000 €", some "fair",
          [("Propietarios anteriores", "01")]⟩)
        [⟨"u", true, []⟩]).1.head?.map
      (fun d => fget d.data "Propietarios anteriores")) =
        some (some Value.null) ∧
    ((fetch_details
        (fun _ => ⟨some "T", none, some "1.000 €", some "fair",
          [("Propietarios anteriores", "01")]⟩)
        [⟨"u", true, []⟩]).1.head?.map (fun d => d.needs_details)) =
      some false := by
  exact ⟨rfl, rfl⟩

/-- C1, amended: for every features-panel entry whose label is mapped
to a normalizer, if the label is present with a truthy (non-empty) raw
value that fails normalization, the corresponding key is *stored with
Python's `None`* (a null marker) in the parsed pairs that the detail
stage writes; a mapped key is absent only when the label is missing or
its raw value is the empty string. -/
theorem c1_amended (fs : List (String × String)) (v : String) :
    (truthyGet fs "Kilometraje" = some v → _parse_km v.toList = none →
      fget (buildInfoPairs fs) "Kilometraje" = some Value.null) ∧
    (truthyGet fs "Potencia" = some v → _parse_kw v.toList = none →
      fget (buildInfoPairs fs) "Potencia (Kw)" = some Value.null) ∧
    (truthyGet fs "Tiempo de carga rápida" = some v →
      _parse_minutes v.toList = none →
      fget (buildInfoPairs fs) "Tiempo de carga rápida (mins)" =
        some Value.null) ∧
    (truthyGet fs "Autonomía (WLTP)" = some v → _parse_km v.toList = none →
      fget (buildInfoPairs fs) "Autonomía WLTP (Km)" = some Value.null) ∧
    (truthyGet fs "Propietarios anteriores" = some v →
      _parse_int v.toList = none →
      fget (buildInfoPairs fs) "Propietarios anteriores" =
        some Value.null) := by
  refine ⟨?_, ?_, ?_, ?_, ?_⟩
  · intro hv hp
    rw [fget_buildInfoPairs_km fs v hv, hp]
    rfl
  · intro hv hp
    rw [fget_buildInfoPairs_kw fs v hv, hp]
    rfl
  · intro hv hp
    rw [fget_buildInfoPairs_minutes fs v hv, hp]
    rfl
  · intro hv hp
    rw [fget_buildInfoPairs_wltp fs v hv, hp]
    rfl
  · intro hv hp
    rw [fget_buildInfoPairs_owners fs v hv, hp]
    rfl

/-- C1, witness: the amended claim at the concrete panel value `"01"`
(an invalid owner count): the key is stored with the null marker. -/
theorem c1_witness :
    fget (buildInfoPairs [("Propietarios anteriores", "01")])
      "Propietarios anteriores" = some Value.null :=
  (c1_amended [("Propietarios anteriores", "01")] "01").2.2.2.2
    (by decide) (by decide)

/-- C2, counterexample: on an empty store and a page with two fresh
items, `perform_search_in_pag_num` inserts two records, but the value
the Python function returns is the boolean `n_adds >= 1` — read as a
Python integer it is `1`, not the insertion count `2`. -/
theorem c2_counterexample :
    (pagReturn [] ["x?id=1&a", "x?id=2&b"]).toNat ≠
      (perform_search_in_pag_num [] ["x?id=1&a", "x?id=2&b"]).2 := by
  decide

/-- C2, amended: `perform_search_in_pag_num` appends one new pending
record per extracted identity not already present (existing records are
left untouched — the old store is an unchanged prefix), the number of
insertions is the length of the appended block, and the function's
return value is the *boolean* `n_adds >= 1`, not the count itself. -/
theorem c2_amended (st : List Doc) (hrefs : List String) :
    ∃ ds : List Doc,
      (perform_search_in_pag_num st hrefs).1 = st ++ ds ∧
      (perform_search_in_pag_num st hrefs).2 = ds.length ∧
      (∀ d ∈ ds, d.needs_details = true ∧ d.data = [] ∧
        dbGetByURL st d.URL = none ∧
        ∃ h ∈ hrefs, d.URL = clean_car_url h) ∧
      (∀ h ∈ hrefs,
        (dbGetByURL (perform_search_in_pag_num st hrefs).1
          (clean_car_url h)).isSome = true) ∧
      pagReturn st hrefs = decide (1 ≤ ds.length) := by
  obtain ⟨ds, h1, h2, h3⟩ := searchPag_store hrefs st
  refine ⟨ds, h1, h2, h3, fun h hm => searchPag_mem hrefs st h hm, ?_⟩
  unfold pagReturn perform_search_in_pag_num
  rw [h2]

/-- C2, witness: the amended claim instantiated on an empty store and a
two-item page. -/
theorem c2_witness :
    ∃ ds : List Doc,
      (perform_search_in_pag_num [] ["x?id=1&a", "x?id=2&b"]).1 =
        [] ++ ds ∧
      (perform_search_in_pag_num [] ["x?id=1&a", "x?id=2&b"]).2 =
        ds.length ∧
      (∀ d ∈ ds, d.needs_details = true ∧ d.data = [] ∧
        dbGetByURL [] d.URL = none ∧
        ∃ h ∈ ["x?id=1&a", "x?id=2&b"], d.URL = clean_car_url h) ∧
      (∀ h ∈ ["x?id=1&a", "x?id=2&b"],
        (dbGetByURL (perform_search_in_pag_num []
          ["x?id=1&a", "x?id=2&b"]).1 (clean_car_url h)).isSome = true) ∧
      pagReturn [] ["x?id=1&a", "x?id=2&b"] = decide (1 ≤ ds.length) :=
  c2_amended [] ["x?id=1&a", "x?id=2&b"]

/-- C3, counterexample: a detail page whose optional
price-fairness-label element is missing is *fatal*: the single-item
detail extraction raises (modelled `Except.error`), and a run of
`fetch_details` over a store with that pending item leaves the record
pending instead of completing it with an empty field. -/
theorem c3_counterexample :
    fetch_one ⟨some "T", some "S", some "1.000 €", none, []⟩ =
      Except.error () ∧
    (fetch_details
      (fun _ => ⟨some "T", some "S", some "1.000 €", none, []⟩)
      [⟨"u", true, []⟩]).1 = [⟨"u", true, []⟩] := by
  exact ⟨rfl, rfl⟩

/-- C3, amended: of the two optional text fields only the subtitle is
truly optional — a missing subtitle element is non-fatal and the field
is left empty — while a missing price-fairness-label element makes the
item's detail fetch raise, for any page content. -/
theorem c3_amended :
    (∀ (p : DetailPage) (t pr f : String),
      p.titleEl = some t → p.priceEl = some pr → p.fairnessEl = some f →
      p.subtitleEl = none →
      ∃ cd, fetch_one p = Except.ok cd ∧
        fget cd "subtitle" = some (Value.str "")) ∧
    (∀ p : DetailPage, p.fairnessEl = none →
      fetch_one p = Except.error ()) := by
  constructor
  · intro p t pr f ht hp hf hs
    obtain ⟨tE, sE, pE, fE, feats⟩ := p
    simp only at ht hp hf hs
    subst ht
    subst hp
    subst hf
    subst hs
    exact ⟨_, rfl, rfl⟩
  · intro p hf
    exact fetch_one_fairness_none hf

/-- C3, witness: the amended claim at concrete pages — a page missing
only the subtitle completes with an empty subtitle, a page missing the
fairness label errors. -/
theorem c3_witness :
    (∃ cd, fetch_one ⟨some "T", none, some "1.000 €", some "fair", []⟩ =
        Except.ok cd ∧ fget cd "subtitle" = some (Value.str "")) ∧
    fetch_one ⟨some "T2", some "S", some "1.000 €", none, []⟩ =
      Except.error () :=
  ⟨c3_amended.1 _ "T" "1.000 €" "fair" rfl rfl rfl rfl,
   c3_amended.2 _ rfl⟩

/-- C4: `perform_search` takes the page count `N` as a single upfront
value, visits pages `1..k` in increasing order for some `k ≤ N`, every
visited page before the last inserted at least one new record, if it
stopped before page `N` then the last visited page inserted zero new
records (so no page after the first zero-insertion page is ever
visited), and if every page inserts at least one record it runs through
page `N`. -/
theorem c4_early_exit (pages : Nat → List String) (st : List Doc)
    (N : Nat) :
    ∃ k, k ≤ N ∧
      (perform_search N pages st).2 = List.range' 1 k ∧
      (∀ i, i + 1 < k → 1 ≤ newOnPage pages st (List.range' 1 N) i) ∧
      (k < N → 0 < k ∧ newOnPage pages st (List.range' 1 N) (k - 1) = 0) ∧
      ((∀ i, i < N → 1 ≤ newOnPage pages st (List.range' 1 N) i) →
        k = N) := by
  obtain ⟨k, hk1, hk2, hk3, hk4⟩ := searchPages_spec pages (List.range' 1 N) st
  rw [List.length_range'] at hk1 hk4
  refine ⟨k, hk1, ?_, hk3, hk4, ?_⟩
  · rw [perform_search, hk2, take_range' N k 1 hk1]
  · intro hall
    by_contra hkN
    have hlt : k < N := by omega
    obtain ⟨hk0, hz⟩ := hk4 hlt
    have := hall (k - 1) (by omega)
    omega

/-- C4, witness: the end-to-end scenario — page 1 yields `{A, B}`,
page 2 yields `{A, C}`, page 3 yields `{A, B}` (all duplicates), so of
the four pages only `[1, 2, 3]` are visited. -/
theorem c4_witness :
    (∃ k, k ≤ 4 ∧
      (perform_search 4
        (fun p => if p = 1 then ["A", "B"] else if p = 2 then ["A", "C"]
          else if p = 3 then ["A", "B"] else ["D"]) []).2 =
        List.range' 1 k ∧
      (∀ i, i + 1 < k → 1 ≤ newOnPage
        (fun p => if p = 1 then ["A", "B"] else if p = 2 then ["A", "C"]
          else if p = 3 then ["A", "B"] else ["D"]) []
        (List.range' 1 4) i) ∧
      (k < 4 → 0 < k ∧ newOnPage
        (fun p => if p = 1 then ["A", "B"] else if p = 2 then ["A", "C"]
          else if p = 3 then ["A", "B"] else ["D"]) []
        (List.range' 1 4) (k - 1) = 0) ∧
      ((∀ i, i < 4 → 1 ≤ newOnPage
        (fun p => if p = 1 then ["A", "B"] else if p = 2 then ["A", "C"]
          else if p = 3 then ["A", "B"] else ["D"]) []
        (List.range' 1 4) i) → k = 4)) ∧
    (perform_search 4
      (fun p => if p = 1 then ["A", "B"] else if p = 2 then ["A", "C"]
        else if p = 3 then ["A", "B"] else ["D"]) []).2 = [1, 2, 3] :=
  ⟨c4_early_exit
    (fun p => if p = 1 then ["A", "B"] else if p = 2 then ["A", "C"]
      else if p = 3 then ["A", "B"] else ["D"]) [] 4, by decide⟩

/-- C5: for each of the four grouped-integer normalizers
(currency-amount, distance-km, power-kw, duration-minutes): every
numeric token chunked as a leading group of 1–3 digits followed by
groups of exactly 3 digits separated by `.` parses (with its unit) to
the integer obtained by concatenating the groups, and every other
digit-and-dot token (one admitting no such chunking) is rejected. -/
theorem c5_grouped_normalizers (gs : List (List Char)) (s : List Char)
    (hgs : groupedOK gs = true) (hs : s.all digitOrDot = true)
    (hbad : ∀ gs', groupedOK gs' = true → joinDots gs' ≠ s) :
    (_parse_price_eur (joinDots gs ++ [' ', '€']) =
        some (digitsToNat gs.flatten) ∧
     _parse_km (joinDots gs ++ [' ', 'k', 'm']) =
        some (digitsToNat gs.flatten) ∧
     _parse_kw (joinDots gs ++ [' ', 'k', 'W']) =
        some (digitsToNat gs.flatten) ∧
     _parse_minutes (joinDots gs ++ [' ', 'm', 'i', 'n']) =
        some (digitsToNat gs.flatten)) ∧
    (_parse_price_eur (s ++ [' ', '€']) = none ∧
     _parse_km (s ++ [' ', 'k', 'm']) = none ∧
     _parse_kw (s ++ [' ', 'k', 'W']) = none ∧
     _parse_minutes (s ++ [' ', 'm', 'i', 'n']) = none) :=
  ⟨⟨parse_price_eur_grouped gs hgs, parse_km_grouped gs hgs,
    parse_kw_grouped gs hgs, parse_minutes_grouped gs hgs⟩,
   parse_price_eur_bad s hs hbad, parse_km_bad s hs hbad,
   parse_kw_bad s hs hbad, parse_minutes_bad s hs hbad⟩

/-- C5, witness: the chunking `49.547` parses to `49547` while the
mis-grouped `49.54` is rejected (shown here on the distance parser). -/
theorem c5_witness :
    _parse_km (joinDots [['4', '9'], ['5', '4', '7']] ++
        [' ', 'k', 'm']) =
      some (digitsToNat [['4', '9'], ['5', '4', '7']].flatten) ∧
    _parse_km (['4', '9', '.', '5', '4'] ++ [' ', 'k', 'm']) = none := by
  have hbad : ∀ gs', groupedOK gs' = true →
      joinDots gs' ≠ ['4', '9', '.', '5', '4'] := by
    intro gs' hg heq
    have hpos := parse_km_grouped gs' hg
    rw [heq] at hpos
    have hnone :
        _parse_km (['4', '9', '.', '5', '4'] ++ [' ', 'k', 'm']) = none := by
      decide
    rw [hpos] at hnone
    exact absurd hnone (by simp)
  have h := c5_grouped_normalizers [['4', '9'], ['5', '4', '7']]
    ['4', '9', '.', '5', '4'] (by decide) (by decide) hbad
  exact ⟨h.1.2.1, h.2.2.1⟩

/-- C6: soundness of the power-kw grammar — every string `_parse_kw`
accepts decomposes as optional whitespace, a well-grouped integer
(whose concatenated digits give the result), at least one whitespace
character, `kW` up to ASCII case, and a tail that is either pure
whitespace or a single parenthetical `(...)` (opening parenthesis,
arbitrary newline-free text, closing parenthesis) surrounded by
whitespace — so any other trailing text is rejected; and conversely a
grouped integer with `kW` and one trailing parenthetical is accepted. -/
theorem c6_kw_full_string :
    (∀ (s : List Char) (v : Nat), _parse_kw s = some v →
      ∃ ws0 gs ws1 a b rest,
        s = ws0 ++ joinDots gs ++ ws1 ++ a :: b :: rest ∧
        ws0.all pySpace = true ∧
        groupedOK gs = true ∧
        v = digitsToNat gs.flatten ∧
        ws1 ≠ [] ∧ ws1.all pySpace = true ∧
        lowerA a = 'k' ∧ lowerA b = 'w' ∧
        (rest.all pySpace = true ∨
         ∃ ws2 mid ws3, rest = ws2 ++ '(' :: (mid ++ ')' :: ws3) ∧
           ws2.all pySpace = true ∧ ws3.all pySpace = true ∧
           mid.any (fun c => c = '\n') = false)) ∧
    (∀ (gs : List (List Char)) (mid : List Char),
      groupedOK gs = true → mid.any (fun c => c = '\n') = false →
      _parse_kw (joinDots gs ++
          (' ' :: 'k' :: 'W' :: ' ' :: '(' :: (mid ++ [')']))) =
        some (digitsToNat gs.flatten)) :=
  ⟨parse_kw_sound, parse_kw_one_paren⟩

/-- C6, witness: `"350 kW (476 cv)"` decomposes per the grammar, and
the one-parenthetical form is accepted on concrete inputs. -/
theorem c6_witness :
    (∃ ws0 gs ws1 a b rest,
      "350 kW (476 cv)".toList =
        ws0 ++ joinDots gs ++ ws1 ++ a :: b :: rest ∧
      ws0.all pySpace = true ∧
      groupedOK gs = true ∧
      (350 : Nat) = digitsToNat gs.flatten ∧
      ws1 ≠ [] ∧ ws1.all pySpace = true ∧
      lowerA a = 'k' ∧ lowerA b = 'w' ∧
      (rest.all pySpace = true ∨
       ∃ ws2 mid ws3, rest = ws2 ++ '(' :: (mid ++ ')' :: ws3) ∧
         ws2.all pySpace = true ∧ ws3.all pySpace = true ∧
         mid.any (fun c => c = '\n') = false)) ∧
    _parse_kw (joinDots [['3', '5', '0']] ++
        (' ' :: 'k' :: 'W' :: ' ' :: '(' :: (['c', 'v'] ++ [')']))) =
      some (digitsToNat [['3', '5', '0']].flatten) :=
  ⟨c6_kw_full_string.1 "350 kW (476 cv)".toList 350 (by decide),
   c6_kw_full_string.2 [['3', '5', '0']] ['c', 'v'] (by decide)
     (by decide)⟩

lemma crawlStep_mono {s t : List Doc} (h : CrawlStep s t) (i : Nat)
    (d : Doc) (hd : s.get? i = some d) :
    ∃ d', t.get? i = some d' ∧
      (d.needs_details = false → d'.needs_details = false) := by
  cases h with
  | discover hrefs =>
    obtain ⟨ds, h1, _, _⟩ := searchPag_store hrefs s
    refine ⟨d, ?_, fun hh => hh⟩
    unfold perform_search_in_pag_num
    rw [h1]
    obtain ⟨hlt, _⟩ := List.get?_eq_some.mp hd
    rw [List.get?_append hlt]
    exact hd
  | details page =>
    unfold fetch_details
    exact fetch_details_loop_mono page i (pendingSnapshot s) s d hd

/-- C7: along any sequence of crawler operations (page discoveries and
detail runs), a record whose `needsDetails` flag is `false` keeps
existing at its doc id and its flag never reverts to `true`: the flag
is monotone, so it flips `true → false` at most once and never back. -/
theorem c7_needs_details_monotone (st st' : List Doc)
    (hreach : Relation.ReflTransGen CrawlStep st st') (i : Nat) (d : Doc)
    (hd : st.get? i = some d) (hfalse : d.needs_details = false) :
    ∃ d', st'.get? i = some d' ∧ d'.needs_details = false := by
  induction hreach with
  | refl => exact ⟨d, hd, hfalse⟩
  | tail hab hbc ih =>
    obtain ⟨d1, hd1, hf1⟩ := ih
    obtain ⟨d2, hd2, himp⟩ := crawlStep_mono hbc i d1 hd1
    exact ⟨d2, hd2, himp hf1⟩

/-- C7, witness: after a discovery step over a store holding one
completed record, that record still exists with `needs_details =
false`. -/
theorem c7_witness :
    ∃ d', (perform_search_in_pag_num [⟨"u", false, []⟩] ["v"]).1.get? 0 =
        some d' ∧ d'.needs_details = false :=
  c7_needs_details_monotone [⟨"u", false, []⟩]
    (perform_search_in_pag_num [⟨"u", false, []⟩] ["v"]).1
    (Relation.ReflTransGen.single
      (CrawlStep.discover [⟨"u", false, []⟩] ["v"]))
    0 ⟨"u", false, []⟩ rfl rfl

/-- C8: if a pending record's detail page lacks a required element (the
title element or the price block), then after the whole `fetch_details`
run that record is byte-for-byte unchanged — still pending, no field
written. -/
theorem c8_no_partial_write (st : List Doc) (page : String → DetailPage)
    (i : Nat) (d : Doc) (hd : st.get? i = some d)
    (hpend : d.needs_details = true)
    (hreq : (page d.URL).titleEl = none ∨ (page d.URL).priceEl = none) :
    (fetch_details page st).1.get? i = some d ∧
      d.needs_details = true := by
  refine ⟨?_, hpend⟩
  unfold fetch_details
  rw [fetch_details_loop_skip page i (pendingSnapshot st) st ?_]
  · exact hd
  · intro p hp hpi
    obtain ⟨j, dj⟩ := p
    obtain ⟨hget, _⟩ := pendingSnapshot_get hp
    simp only at hpi
    rw [hpi, hd] at hget
    injection hget with hget
    simp only
    rw [← hget]
    exact fetch_one_required hreq

/-- C8, witness: a store with one pending record whose page has no
price block — the record survives a `fetch_details` run unchanged. -/
theorem c8_witness :
    (fetch_details (fun _ => ⟨some "T", none, none, none, []⟩)
      [⟨"u", true, []⟩]).1.get? 0 = some ⟨"u", true, []⟩ ∧
    (⟨"u", true, []⟩ : Doc).needs_details = true :=
  c8_no_partial_write [⟨"u", true, []⟩]
    (fun _ => ⟨some "T", none, none, none, []⟩) 0 ⟨"u", true, []⟩
    rfl rfl (Or.inr rfl)

/-- C9: discovery is idempotent — running
`perform_search_in_pag_num` a second time over the same link sequence,
with the store as the first run left it, inserts zero new records. -/
theorem c9_discovery_idempotent (st : List Doc) (hrefs : List String) :
    (perform_search_in_pag_num
      (perform_search_in_pag_num st hrefs).1 hrefs).2 = 0 := by
  have hall : ∀ h ∈ hrefs,
      (dbGetByURL (searchPag hrefs st).1 (clean_car_url h)).isSome =
        true :=
    fun h hm => searchPag_mem hrefs st h hm
  have hrun := searchPag_all_present hrefs (searchPag hrefs st).1 hall
  unfold perform_search_in_pag_num
  rw [hrun]

/-- C10: on a detail page with the required elements present, the
completed record's field list always carries the `subtitle` key: when
the subtitle element is missing the stored value is the empty string
(not omitted, not a null marker), and when it is present the stored
value is the element's text; the key survives the merge into the
document unchanged. -/
theorem c10_subtitle_empty_string (p : DetailPage) (t pr f : String)
    (ht : p.titleEl = some t) (hp : p.priceEl = some pr)
    (hf : p.fairnessEl = some f) :
    ∃ cd, fetch_one p = Except.ok cd ∧
      (p.subtitleEl = none →
        fget cd "subtitle" = some (Value.str "")) ∧
      (∀ s, p.subtitleEl = some s →
        fget cd "subtitle" = some (Value.str s)) ∧
      (∀ d : Doc, fget (updateDetails d cd).data "subtitle" =
        fget cd "subtitle") := by
  obtain ⟨tE, sE, pE, fE, feats⟩ := p
  simp only at ht hp hf
  subst ht
  subst hp
  subst hf
  cases sE with
  | none =>
    refine ⟨_, rfl, fun _ => rfl, ?_, ?_⟩
    · intro s hs
      exact absurd hs (by simp)
    · intro d
      unfold updateDetails
      simp only
      rw [fget_mergeFields]
      rfl
  | some s0 =>
    refine ⟨_, rfl, ?_, ?_, ?_⟩
    · intro hs
      exact absurd hs (by simp)
    · intro s hs
      simp only at hs
      injection hs with hs
      subst hs
      rfl
    · intro d
      unfold updateDetails
      simp only
      rw [fget_mergeFields]
      rfl

/-- C10, witness: the subtitle cases on concrete pages — missing
subtitle stored as `""`, present subtitle stored verbatim. -/
theorem c10_witness :
    (∃ cd, fetch_one ⟨some "T", none, some "1 €", some "ok", []⟩ =
        Except.ok cd ∧
      (((⟨some "T", none, some "1 €", some "ok", []⟩ :
          DetailPage).subtitleEl = none →
        fget cd "subtitle" = some (Value.str "")) ∧
      (∀ s, (⟨some "T", none, some "1 €", some "ok", []⟩ :
          DetailPage).subtitleEl = some s →
        fget cd "subtitle" = some (Value.str s)) ∧
      (∀ d : Doc, fget (updateDetails d cd).data "subtitle" =
        fget cd "subtitle"))) ∧
    (∃ cd, fetch_one ⟨some "T", some "Sub", some "1 €", some "ok", []⟩ =
        Except.ok cd ∧
      fget cd "subtitle" = some (Value.str "Sub")) := by
  constructor
  · obtain ⟨cd, h1, h2, h3, h4⟩ :=
      c10_subtitle_empty_string ⟨some "T", none, some "1 €", some "ok", []⟩
        "T" "1 €" "ok" rfl rfl rfl
    exact ⟨cd, h1, h2, h3, h4⟩
  · obtain ⟨cd, h1, h2, h3, h4⟩ :=
      c10_subtitle_empty_string
        ⟨some "T", some "Sub", some "1 €", some "ok", []⟩
        "T" "1 €" "ok" rfl rfl rfl
    exact ⟨cd, h1, h3 "Sub" rfl⟩
